import Mathlib

/-!
Verification of the gnark constraint-solver core: a shallow embedding of
`constraint/bls12-381/solver.go` (type `Solver`) and
`constraint/bn254/solution.go` (type `Solution`) over the prime field
`ZMod q`.  Fatal panics in the Go source are modelled as `none`; Go errors
are modelled as `Option String` values threaded through results.
-/

namespace Gnark

/-- A term is a (coefficient id, wire id) pair.  The `constraint.Term`
encoding lives outside the embedded files, so the distinguished constant
tag is modelled from the spec as an explicit flag; coefficient ids
0, 1, 2, 3 are the reserved fast paths for the literals 0, 1, 2, -1. -/
structure Term where
  cID : ℕ
  vID : ℕ
  isConstant : Bool
deriving DecidableEq

/-- Zero value of `constraint.Term` (`var termToCompute constraint.Term`). -/
def defaultTerm : Term := ⟨0, 0, false⟩

/-- A log/debug entry (`constraint.LogEntry`): a format string, the bound
linear expressions, and the call-stack lines.  The `SymbolTable`
indirection of the source is collapsed: `stack` holds the already rendered
location lines that `logValue` would build from the table. -/
structure LogEntry where
  format : String
  toResolve : List (List Term)
  stack : List String

/-- A registered hint function, modelling
`f(modulus *big.Int, inputs, outputs []*big.Int) error`: it receives the
modulus, the marshalled inputs and the number of declared outputs, and
returns the outputs it wrote into the zero-initialised buffer together
with an optional error. -/
abbrev HintFn := ℤ → List ℤ → ℕ → List ℤ × Option String

/-- A hint mapping (`constraint.HintMapping`): function id, input linear
expressions and the contiguous output wire range. -/
structure HintMapping where
  hintID : ℕ
  inputs : List (List Term)
  outStart : ℕ
  outEnd : ℕ

/-- State of the bls12-381 solver (`solver` in solver.go): per-wire values
and solved flags, the solved counter, the shared coefficient table, the
`a`, `b`, `c` accumulator vectors, the hint-function registry and the
debug metadata of the embedded system. -/
structure Solver (q : ℕ) where
  values : ℕ → ZMod q
  solved : ℕ → Bool
  nbSolved : ℕ
  coefficients : ℕ → ZMod q
  aVec : ℕ → ZMod q
  bVec : ℕ → ZMod q
  cVec : ℕ → ZMod q
  mHintsFunctions : ℕ → Option HintFn
  mDebug : ℕ → Option ℕ
  debugInfo : ℕ → LogEntry

/-- `solver.set`: fatal (`none`) if the wire is already solved, otherwise
record the value, mark the wire solved and increment the solved counter. -/
def Solver.set {q : ℕ} (s : Solver q) (id : ℕ) (value : ZMod q) : Option (Solver q) :=
  if s.solved id then none
  else some { s with
    values := Function.update s.values id value
    solved := Function.update s.solved id true
    nbSolved := s.nbSolved + 1 }

/-- `solver.computeTerm`: coefficient value for constant-tagged terms;
fatal for a non-constant term with nonzero coefficient id on an unsolved
wire; otherwise coefficient-id dispatch with the 0, 1, 2, -1 fast paths. -/
def Solver.computeTerm {q : ℕ} (s : Solver q) (t : Term) : Option (ZMod q) :=
  if t.isConstant then some (s.coefficients t.cID)
  else if t.cID ≠ 0 ∧ s.solved t.vID = false then none
  else match t.cID with
  | 0 => some 0
  | 1 => some (s.values t.vID)
  | 2 => some (2 * s.values t.vID)
  | 3 => some (-s.values t.vID)
  | _ => some (s.coefficients t.cID * s.values t.vID)

/-- `solver.accumulateInto`: same coefficient-id dispatch as
`computeTerm`, adding into / subtracting from the accumulator `r`. -/
def Solver.accumulateInto {q : ℕ} (s : Solver q) (t : Term) (r : ZMod q) : ZMod q :=
  if t.isConstant then r + s.coefficients t.cID
  else match t.cID with
  | 0 => r
  | 1 => r + s.values t.vID
  | 2 => r + 2 * s.values t.vID
  | 3 => r - s.values t.vID
  | _ => r + s.coefficients t.cID * s.values t.vID

/-- C3: `set` panics exactly on an already-solved wire; otherwise it
stores the value at the wire, marks it solved, increments the solved
count by one, and touches nothing else. -/
theorem set_spec {q : ℕ} (s : Solver q) (id : ℕ) (v : ZMod q) :
    (s.solved id = true → s.set id v = none)
    ∧ (s.solved id = false →
        ∃ s', s.set id v = some s'
          ∧ s'.values id = v ∧ s'.solved id = true
          ∧ s'.nbSolved = s.nbSolved + 1
          ∧ (∀ j, j ≠ id → s'.values j = s.values j ∧ s'.solved j = s.solved j)
          ∧ s'.coefficients = s.coefficients ∧ s'.aVec = s.aVec
          ∧ s'.bVec = s.bVec ∧ s'.cVec = s.cVec
          ∧ s'.mHintsFunctions = s.mHintsFunctions
          ∧ s'.mDebug = s.mDebug ∧ s'.debugInfo = s.debugInfo) := by
  constructor
  · intro h
    simp [Solver.set, h]
  · intro h
    refine ⟨{ s with
        values := Function.update s.values id v
        solved := Function.update s.solved id true
        nbSolved := s.nbSolved + 1 },
      by simp [Solver.set, h], ?_, ?_, rfl, ?_, rfl, rfl, rfl, rfl, rfl, rfl, rfl⟩
    · simp
    · simp
    · intro j hj
      constructor
      · exact Function.update_noteq hj _ _
      · exact Function.update_noteq hj _ _

/-- Example state used by the `set` witness: wire 0 solved, wire 1 not. -/
def wSetSolver : Solver 5 :=
  { values := fun _ => 0
    solved := fun i => i == 0
    nbSolved := 1
    coefficients := fun _ => 0
    aVec := fun _ => 0
    bVec := fun _ => 0
    cVec := fun _ => 0
    mHintsFunctions := fun _ => none
    mDebug := fun _ => none
    debugInfo := fun _ => ⟨"", [], []⟩ }

/-- Witness for C3 at a concrete state: setting solved wire 0 panics,
setting unsolved wire 1 succeeds, records the value and bumps the count. -/
theorem set_spec_witness :
    wSetSolver.set 0 3 = none
    ∧ ∃ s', wSetSolver.set 1 3 = some s'
        ∧ s'.values 1 = 3 ∧ s'.solved 1 = true ∧ s'.nbSolved = 2 := by
  refine ⟨(set_spec wSetSolver 0 3).1 rfl, ?_⟩
  obtain ⟨s', h1, h2, h3, h4, -⟩ := (set_spec wSetSolver 1 3).2 rfl
  exact ⟨s', h1, h2, h3, h4⟩

/-- C6: for a non-constant term over a solved wire, the zero, one, two
and minus-one fast paths of `computeTerm` and `accumulateInto` agree with the generic
coefficient-table multiplication, provided the table holds 0, 1, 2 and -1
at the reserved ids; and `accumulateInto` adds exactly `computeTerm`. -/
theorem fast_path_equivalence {q : ℕ} (s : Solver q) (t : Term) (r : ZMod q)
    (h0 : s.coefficients 0 = 0) (h1 : s.coefficients 1 = 1)
    (h2 : s.coefficients 2 = 2) (h3 : s.coefficients 3 = -1)
    (hnc : t.isConstant = false) (hs : s.solved t.vID = true) :
    s.computeTerm t = some (s.coefficients t.cID * s.values t.vID)
    ∧ s.accumulateInto t r = r + s.coefficients t.cID * s.values t.vID
    ∧ s.accumulateInto t r = r + (s.computeTerm t).getD 0 := by
  obtain ⟨cid, vid, const⟩ := t
  simp only at hnc hs
  subst hnc
  have key : s.computeTerm ⟨cid, vid, false⟩ = some (s.coefficients cid * s.values vid)
      ∧ s.accumulateInto ⟨cid, vid, false⟩ r = r + s.coefficients cid * s.values vid := by
    rcases cid with _ | _ | _ | _ | n
    · simp [Solver.computeTerm, Solver.accumulateInto, h0]
    · simp [Solver.computeTerm, Solver.accumulateInto, h1, hs]
    · simp [Solver.computeTerm, Solver.accumulateInto, h2, hs]
    · constructor
      · simp [Solver.computeTerm, h3, hs, neg_one_mul]
      · simp only [Solver.accumulateInto, Bool.false_eq_true, if_false, h3]
        ring
    · simp [Solver.computeTerm, Solver.accumulateInto, hs]
  exact ⟨key.1, key.2, by rw [key.1, key.2]; simp⟩

/-- Witness state for the C6 and C7 term-evaluator claims: the reserved
coefficient-table entries hold 0, 1, 2, -1; wire 1 is solved with value
3, wire 4 is unsolved. -/
def wTermSolver : Solver 5 :=
  { values := fun i => if i = 1 then 3 else 0
    solved := fun i => i == 1
    nbSolved := 1
    coefficients := fun i => if i = 0 then 0 else if i = 1 then 1 else
      if i = 2 then 2 else if i = 3 then -1 else 4
    aVec := fun _ => 0
    bVec := fun _ => 0
    cVec := fun _ => 0
    mHintsFunctions := fun _ => none
    mDebug := fun _ => none
    debugInfo := fun _ => ⟨"", [], []⟩ }

/-- Witness for C6: at a concrete solved wire with the minus-one fast
path, `computeTerm` equals the generic product and `accumulateInto` adds
exactly that product. -/
theorem fast_path_equivalence_witness :
    wTermSolver.coefficients 3 = -1 ∧ wTermSolver.solved 1 = true
    ∧ wTermSolver.computeTerm ⟨3, 1, false⟩
        = some (wTermSolver.coefficients 3 * wTermSolver.values 1)
    ∧ wTermSolver.accumulateInto ⟨3, 1, false⟩ 1
        = 1 + wTermSolver.coefficients 3 * wTermSolver.values 1 := by
  have h := fast_path_equivalence wTermSolver ⟨3, 1, false⟩ 1
    (by decide) (by decide) (by decide) (by decide) rfl rfl
  exact ⟨by decide, rfl, h.1, h.2.1⟩

/-- C7 counterexample: a non-constant term with coefficient id zero over
an unsolved wire does not panic; `computeTerm` returns `some 0`. -/
theorem computeTerm_zero_coeff_no_panic :
    wTermSolver.solved 4 = false
    ∧ Term.isConstant ⟨0, 4, false⟩ = false
    ∧ wTermSolver.computeTerm ⟨0, 4, false⟩ = some 0 := ⟨rfl, rfl, rfl⟩

/-- C7 (amended): `computeTerm` panics on an unsolved wire exactly when
the coefficient id is nonzero; a coefficient-id-zero term returns field
zero without touching the wire, and a constant-tagged term returns the
coefficient-table entry. -/
theorem computeTerm_fatal_spec {q : ℕ} (s : Solver q) (t : Term) :
    (t.isConstant = true → s.computeTerm t = some (s.coefficients t.cID))
    ∧ (t.isConstant = false → t.cID ≠ 0 → s.solved t.vID = false →
        s.computeTerm t = none)
    ∧ (t.isConstant = false → t.cID = 0 → s.computeTerm t = some 0) := by
  obtain ⟨cid, vid, const⟩ := t
  refine ⟨fun hc => ?_, fun hc hn hs => ?_, fun hc h0 => ?_⟩
  · simp only at hc
    subst hc
    simp [Solver.computeTerm]
  · simp only at hc hn hs
    subst hc
    simp [Solver.computeTerm, hn, hs]
  · simp only at hc h0
    subst hc
    subst h0
    simp [Solver.computeTerm]

/-- Witness for C7 (amended) at concrete inputs: a constant term returns
its table entry, a nonzero-coefficient term on the unsolved wire 4
panics, and a zero-coefficient term on wire 4 returns zero. -/
theorem computeTerm_fatal_spec_witness :
    wTermSolver.computeTerm ⟨2, 4, true⟩ = some (wTermSolver.coefficients 2)
    ∧ wTermSolver.computeTerm ⟨1, 4, false⟩ = none
    ∧ wTermSolver.computeTerm ⟨0, 4, false⟩ = some 0 :=
  ⟨(computeTerm_fatal_spec wTermSolver ⟨2, 4, true⟩).1 rfl,
   (computeTerm_fatal_spec wTermSolver ⟨1, 4, false⟩).2.1 rfl (by decide) rfl,
   (computeTerm_fatal_spec wTermSolver ⟨0, 4, false⟩).2.2 rfl rfl⟩

/-- Placeholder printed for a log expression referencing an unsolved
wire (`const unsolvedVariable = "<unsolved>"`). -/
def unsolvedVariable : String := "<unsolved>"

/-- Decimal rendering of a field element by its canonical representative,
modelling `fr.Element.String()`. -/
def frString {q : ℕ} (x : ZMod q) : String := toString (ZMod.val x)

/-- Model of `fmt.Sprintf` restricted to the `%s` verb, which is the only
verb the embedded log formats use: each `%s` consumes the next argument,
all other characters are copied verbatim. -/
def sprintf : List Char → List String → String
  | [], _ => ""
  | '%' :: 's' :: cs, a :: args => a ++ sprintf cs args
  | c :: cs, args => c.toString ++ sprintf cs args

/-- One linear expression of a log entry (inner loop of
`solver.logValue`): constants add their table entry, an unsolved wire
aborts with the placeholder, solved wires add their `computeTerm` value.
The `none` arm of `computeTerm` is unreachable after the solved check. -/
def resolveLinearExp {q : ℕ} (s : Solver q) : List Term → ZMod q → String
  | [], eval => frString eval
  | t :: rest, eval =>
    if t.isConstant then resolveLinearExp s rest (eval + s.coefficients t.cID)
    else if s.solved t.vID = false then unsolvedVariable
    else match s.computeTerm t with
      | some tv => resolveLinearExp s rest (eval + tv)
      | none => unsolvedVariable

/-- `solver.logValue`: resolve each bound linear expression (or emit the
placeholder), append the rendered call stack when present, and format. -/
def Solver.logValue {q : ℕ} (s : Solver q) (log : LogEntry) : String :=
  let args := log.toResolve.map (fun le => resolveLinearExp s le 0)
  let args2 := if log.stack.isEmpty then args else args ++ [String.join log.stack]
  sprintf log.format.toList args2

/-- `UnsatisfiedConstraintError`: the failing constraint id, the raw
arithmetic mismatch message, and the optional rendered debug string. -/
structure UnsatisfiedConstraintError where
  cid : ℕ
  errMsg : String
  debugInfo : Option String

/-- `(*UnsatisfiedConstraintError).Error()`: prefer the debug string when
present, fall back to the wrapped error message. -/
def UnsatisfiedConstraintError.render (e : UnsatisfiedConstraintError) : String :=
  match e.debugInfo with
  | some d => "constraint #" ++ toString e.cid ++ " is not satisfied: " ++ d
  | none => "constraint #" ++ toString e.cid ++ " is not satisfied: " ++ e.errMsg

/-- `solver.wrapErrWithDebugInfo`: attach the rendered debug entry when
one was registered for this constraint. -/
def Solver.wrapErrWithDebugInfo {q : ℕ} (s : Solver q) (cID : ℕ) (msg : String) :
    UnsatisfiedConstraintError :=
  { cid := cID
    errMsg := msg
    debugInfo := (s.mDebug cID).map (fun dID => s.logValue (s.debugInfo dID)) }

/-- The raw mismatch message `fmt.Errorf("%s ⋅ %s != %s", a, b, c)`. -/
def rawMismatch {q : ℕ} (a b c : ZMod q) : String :=
  frString a ++ " ⋅ " ++ frString b ++ " != " ++ frString c

/-- A rank-1 constraint: three linear expressions with invariant
`eval L * eval R = eval O`. -/
structure R1C where
  L : List Term
  R : List Term
  O : List Term

/-- The `processLExp` closure of `solver.solveR1C`: scan a linear
expression, accumulating solved terms into `val`; the first unsolved term
is remembered as the unknown (`loc`, `ttc`); a second unsolved term is
fatal. -/
def Solver.processLExp {q : ℕ} (s : Solver q) :
    List Term → ZMod q → ℕ → ℕ → Term → Option (ZMod q × ℕ × Term)
  | [], val, _, loc, ttc => some (val, loc, ttc)
  | t :: rest, val, locValue, loc, ttc =>
    if s.solved t.vID then s.processLExp rest (s.accumulateInto t val) locValue loc ttc
    else if loc ≠ 0 then none
    else s.processLExp rest val locValue locValue t

/-- Write the accumulated `a`, `b`, `c` totals of constraint `cID` back
into the solver vectors (in the source they are mutated in place through
pointers during the scan). -/
def writeABC {q : ℕ} (s : Solver q) (cID : ℕ) (av bv cv : ZMod q) : Solver q :=
  { s with
    aVec := Function.update s.aVec cID av
    bVec := Function.update s.bVec cID bv
    cVec := Function.update s.cVec cID cv }

/-- `solver.divByCoeff`: identity for coefficient id one, negation for
minus-one, fatal for zero, general field division otherwise. -/
def divByCoeff {q : ℕ} [Fact (Nat.Prime q)] (coefficients : ℕ → ZMod q)
    (res : ZMod q) (cID : ℕ) : Option (ZMod q) :=
  match cID with
  | 1 => some res
  | 3 => some (-res)
  | 0 => none
  | _ => some (res / coefficients cID)

/-- Tail of `solver.solveR1C` after the location switch: divide the raw
wire value by the unknown term's coefficient and `set` the wire, with the
final `a`, `b`, `c` totals written back. -/
def finishSolve {q : ℕ} [Fact (Nat.Prime q)] (s : Solver q) (cID : ℕ)
    (av bv cv : ZMod q) (ttc : Term) (wire : ZMod q) :
    Option (Solver q × Option UnsatisfiedConstraintError) :=
  match divByCoeff s.coefficients wire ttc.cID with
  | none => none
  | some w =>
    match Solver.set (writeABC s cID av bv cv) ttc.vID w with
    | none => none
    | some s2 => some (s2, none)

/-- `solver.solveR1C`: scan `L`, `R`, `O` for at most one unknown wire;
with no unknown validate `a*b = c`; with the unknown on `L` (resp. `R`)
solve by dividing when the opposite side is nonzero, otherwise only
validate; with the unknown on `O` compute `a*b - c` directly; then divide
by the unknown coefficient and set the wire. -/
def Solver.solveR1C {q : ℕ} [Fact (Nat.Prime q)] (s : Solver q) (cID : ℕ) (r : R1C) :
    Option (Solver q × Option UnsatisfiedConstraintError) :=
  match s.processLExp r.L (s.aVec cID) 1 0 defaultTerm with
  | none => none
  | some (aL, loc1, t1) =>
  match s.processLExp r.R (s.bVec cID) 2 loc1 t1 with
  | none => none
  | some (bR, loc2, t2) =>
  match s.processLExp r.O (s.cVec cID) 3 loc2 t2 with
  | none => none
  | some (cO, loc, ttc) =>
  if loc = 0 then
    if aL * bR = cO then some (writeABC s cID aL bR cO, none)
    else some (writeABC s cID aL bR cO,
               some (s.wrapErrWithDebugInfo cID (rawMismatch aL bR cO)))
  else if loc = 1 then
    if bR ≠ 0 then
      finishSolve s cID (aL + (cO / bR - aL)) bR cO ttc (cO / bR - aL)
    else if aL * bR = cO then
      finishSolve s cID aL bR cO ttc 0
    else
      some (writeABC s cID aL bR cO,
            some (s.wrapErrWithDebugInfo cID (rawMismatch aL bR cO)))
  else if loc = 2 then
    if aL ≠ 0 then
      finishSolve s cID aL (bR + (cO / aL - bR)) cO ttc (cO / aL - bR)
    else if aL * bR = cO then
      finishSolve s cID aL bR cO ttc 0
    else
      some (writeABC s cID aL bR cO,
            some (s.wrapErrWithDebugInfo cID (rawMismatch aL bR cO)))
  else if loc = 3 then
    finishSolve s cID aL bR (cO + (aL * bR - cO)) ttc (aL * bR - cO)
  else
    finishSolve s cID aL bR cO ttc 0

instance : Fact (Nat.Prime 5) := ⟨by norm_num⟩

/-- Dividing a zero raw value by any nonzero coefficient id yields zero. -/
theorem divByCoeff_zero {q : ℕ} [Fact (Nat.Prime q)] (coefficients : ℕ → ZMod q)
    (cid : ℕ) (hc : cid ≠ 0) : divByCoeff coefficients 0 cid = some 0 := by
  rcases cid with _ | _ | _ | _ | n
  · exact absurd rfl hc
  · rfl
  · simp [divByCoeff]
  · simp [divByCoeff]
  · simp [divByCoeff]

/-- C8: with no unknown wire and `a*b ≠ c`, `solveR1C` reports an
`UnsatisfiedConstraintError` carrying the constraint index; its rendered
message holds the rendered debug entry exactly when one was registered
for the constraint, and the raw mismatch message otherwise. -/
theorem solveR1C_unsat_reporting {q : ℕ} [Fact (Nat.Prime q)] (s : Solver q)
    (cID : ℕ) (r : R1C) (a1 b1 c1 : ZMod q)
    (hL : s.processLExp r.L (s.aVec cID) 1 0 defaultTerm = some (a1, 0, defaultTerm))
    (hR : s.processLExp r.R (s.bVec cID) 2 0 defaultTerm = some (b1, 0, defaultTerm))
    (hO : s.processLExp r.O (s.cVec cID) 3 0 defaultTerm = some (c1, 0, defaultTerm))
    (hne : a1 * b1 ≠ c1) :
    s.solveR1C cID r
      = some (writeABC s cID a1 b1 c1,
              some (s.wrapErrWithDebugInfo cID (rawMismatch a1 b1 c1)))
    ∧ (s.wrapErrWithDebugInfo cID (rawMismatch a1 b1 c1)).cid = cID
    ∧ (∀ dID, s.mDebug cID = some dID →
        (s.wrapErrWithDebugInfo cID (rawMismatch a1 b1 c1)).render
          = "constraint #" ++ toString cID ++ " is not satisfied: "
              ++ s.logValue (s.debugInfo dID))
    ∧ (s.mDebug cID = none →
        (s.wrapErrWithDebugInfo cID (rawMismatch a1 b1 c1)).render
          = "constraint #" ++ toString cID ++ " is not satisfied: "
              ++ rawMismatch a1 b1 c1) := by
  refine ⟨?_, rfl, ?_, ?_⟩
  · simp [Solver.solveR1C, hL, hR, hO, hne]
  · intro dID hd
    simp [Solver.wrapErrWithDebugInfo, UnsatisfiedConstraintError.render, hd]
  · intro hd
    simp [Solver.wrapErrWithDebugInfo, UnsatisfiedConstraintError.render, hd]

/-- Witness state for C8: all wires solved, wire 3 holds 4, a debug
entry with format `x = %s` registered for constraint 2. -/
def wUnsatSolver : Solver 5 :=
  { values := fun i => if i = 3 then 4 else 1
    solved := fun _ => true
    nbSolved := 4
    coefficients := fun i => if i = 0 then 0 else if i = 1 then 1 else
      if i = 2 then 2 else if i = 3 then -1 else 4
    aVec := fun _ => 0
    bVec := fun _ => 0
    cVec := fun _ => 0
    mHintsFunctions := fun _ => none
    mDebug := fun i => if i = 2 then some 0 else none
    debugInfo := fun _ => ⟨"x = %s", [[⟨1, 3, false⟩]], []⟩ }

/-- Witness constraint for C8: `1 * 1 = 4` over solved wires, violated. -/
def wUnsatR1C : R1C := ⟨[⟨1, 0, false⟩], [⟨1, 0, false⟩], [⟨1, 3, false⟩]⟩

/-- Witness for C8 at a concrete violated constraint with a registered
debug entry: the error carries index 2 and renders the debug string. -/
theorem solveR1C_unsat_reporting_witness :
    wUnsatSolver.processLExp wUnsatR1C.L (wUnsatSolver.aVec 2) 1 0 defaultTerm
      = some (1, 0, defaultTerm)
    ∧ (1 : ZMod 5) * 1 ≠ 4
    ∧ wUnsatSolver.solveR1C 2 wUnsatR1C
        = some (writeABC wUnsatSolver 2 1 1 4,
                some (wUnsatSolver.wrapErrWithDebugInfo 2 (rawMismatch (1 : ZMod 5) 1 4)))
    ∧ (wUnsatSolver.wrapErrWithDebugInfo 2 (rawMismatch (1 : ZMod 5) 1 4)).cid = 2
    ∧ (wUnsatSolver.wrapErrWithDebugInfo 2 (rawMismatch (1 : ZMod 5) 1 4)).render
        = "constraint #" ++ toString 2 ++ " is not satisfied: "
            ++ wUnsatSolver.logValue (wUnsatSolver.debugInfo 0) := by
  have h := solveR1C_unsat_reporting wUnsatSolver 2 wUnsatR1C (1 : ZMod 5) (1 : ZMod 5)
    (4 : ZMod 5) (by decide) (by decide) (by decide) (by decide)
  exact ⟨by decide, by decide, h.1, h.2.1, h.2.2.1 0 rfl⟩

/-- C4 (amended): unknown on side `L` with `b = 0`, and symmetrically
unknown on side `R` with `a = 0`: the solver validates `a*b = c`; on
failure it returns an `UnsatisfiedConstraintError` carrying the
constraint index and leaves every solved flag unchanged; on success the
unknown wire is not left unsolved but is set to value zero. -/
theorem solveR1C_unknown_LR_zero {q : ℕ} [Fact (Nat.Prime q)] (s : Solver q)
    (cID : ℕ) (r : R1C) (a1 b1 c1 : ZMod q) (t : Term)
    (hw : s.solved t.vID = false) (hc : t.cID ≠ 0) :
    (s.processLExp r.L (s.aVec cID) 1 0 defaultTerm = some (a1, 1, t) →
     s.processLExp r.R (s.bVec cID) 2 1 t = some (0, 1, t) →
     s.processLExp r.O (s.cVec cID) 3 1 t = some (c1, 1, t) →
      (a1 * 0 ≠ c1 →
        s.solveR1C cID r
          = some (writeABC s cID a1 0 c1,
                  some (s.wrapErrWithDebugInfo cID (rawMismatch a1 0 c1)))
        ∧ (writeABC s cID a1 0 c1).solved = s.solved)
      ∧ (a1 * 0 = c1 →
        ∃ s', s.solveR1C cID r = some (s', none)
          ∧ s'.solved t.vID = true ∧ s'.values t.vID = 0
          ∧ s'.nbSolved = s.nbSolved + 1))
    ∧
    (s.processLExp r.L (s.aVec cID) 1 0 defaultTerm = some (0, 0, defaultTerm) →
     s.processLExp r.R (s.bVec cID) 2 0 defaultTerm = some (b1, 2, t) →
     s.processLExp r.O (s.cVec cID) 3 2 t = some (c1, 2, t) →
      (0 * b1 ≠ c1 →
        s.solveR1C cID r
          = some (writeABC s cID 0 b1 c1,
                  some (s.wrapErrWithDebugInfo cID (rawMismatch 0 b1 c1)))
        ∧ (writeABC s cID 0 b1 c1).solved = s.solved)
      ∧ (0 * b1 = c1 →
        ∃ s', s.solveR1C cID r = some (s', none)
          ∧ s'.solved t.vID = true ∧ s'.values t.vID = 0
          ∧ s'.nbSolved = s.nbSolved + 1)) := by
  have hdiv := divByCoeff_zero s.coefficients t.cID hc
  constructor
  · intro hL hR hO
    constructor
    · intro hne
      have hne0 : (0 : ZMod q) ≠ c1 := by simpa using hne
      refine ⟨?_, rfl⟩
      simp [Solver.solveR1C, hL, hR, hO, hne0]
    · intro heq
      have heq0 : (0 : ZMod q) = c1 := by simpa using heq
      subst heq0
      refine ⟨{ writeABC s cID a1 0 0 with
          values := Function.update (writeABC s cID a1 0 0).values t.vID 0
          solved := Function.update (writeABC s cID a1 0 0).solved t.vID true
          nbSolved := (writeABC s cID a1 0 0).nbSolved + 1 }, ?_, by simp, by simp, rfl⟩
      simp [Solver.solveR1C, hL, hR, hO, finishSolve, hdiv, Solver.set, writeABC, hw]
  · intro hL hR hO
    constructor
    · intro hne
      have hne0 : (0 : ZMod q) ≠ c1 := by simpa using hne
      refine ⟨?_, rfl⟩
      simp [Solver.solveR1C, hL, hR, hO, hne0]
    · intro heq
      have heq0 : (0 : ZMod q) = c1 := by simpa using heq
      subst heq0
      refine ⟨{ writeABC s cID 0 b1 0 with
          values := Function.update (writeABC s cID 0 b1 0).values t.vID 0
          solved := Function.update (writeABC s cID 0 b1 0).solved t.vID true
          nbSolved := (writeABC s cID 0 b1 0).nbSolved + 1 }, ?_, by simp, by simp, rfl⟩
      simp [Solver.solveR1C, hL, hR, hO, finishSolve, hdiv, Solver.set, writeABC, hw]

/-- Witness state for C4: wire 1 unsolved, everything else trivial. -/
def wBzeroSolver : Solver 5 :=
  { values := fun _ => 0
    solved := fun i => i == 0
    nbSolved := 1
    coefficients := fun i => if i = 1 then 1 else 0
    aVec := fun _ => 0
    bVec := fun _ => 0
    cVec := fun _ => 0
    mHintsFunctions := fun _ => none
    mDebug := fun _ => none
    debugInfo := fun _ => ⟨"", [], []⟩ }

/-- Witness constraint for C4, unknown on `L`: `1·w1 * 0 = 0`; `R` and
`O` empty so `b = 0` and `c = 0`. -/
def wBzeroR1C : R1C := ⟨[⟨1, 1, false⟩], [], []⟩

/-- Witness constraint for C4, unknown on `R`: `0 * 1·w1 = 0`; `L` and
`O` empty so `a = 0` and `c = 0`. -/
def wAzeroR1C : R1C := ⟨[], [⟨1, 1, false⟩], []⟩

/-- Witness for C4 (amended) at concrete constraints on both sides: with
the unknown on `L` under `b = 0`, and with the unknown on `R` under
`a = 0`, the validation passes and the unknown wire is set to zero. -/
theorem solveR1C_unknown_LR_zero_witness :
    wBzeroSolver.solved 1 = false
    ∧ (∃ s', wBzeroSolver.solveR1C 0 wBzeroR1C = some (s', none)
        ∧ s'.solved 1 = true ∧ s'.values 1 = 0)
    ∧ (∃ s', wBzeroSolver.solveR1C 0 wAzeroR1C = some (s', none)
        ∧ s'.solved 1 = true ∧ s'.values 1 = 0) := by
  have hLcase := ((solveR1C_unknown_LR_zero wBzeroSolver 0 wBzeroR1C 0 0 0
    ⟨1, 1, false⟩ rfl (by decide)).1 (by decide) (by decide) (by decide)).2 (by decide)
  have hRcase := ((solveR1C_unknown_LR_zero wBzeroSolver 0 wAzeroR1C 0 0 0
    ⟨1, 1, false⟩ rfl (by decide)).2 (by decide) (by decide) (by decide)).2 (by decide)
  obtain ⟨s1, h11, h12, h13, -⟩ := hLcase
  obtain ⟨s2, h21, h22, h23, -⟩ := hRcase
  exact ⟨rfl, ⟨s1, h11, h12, h13⟩, ⟨s2, h21, h22, h23⟩⟩

/-- C4 counterexample: under unknown-on-`L` with `b = 0` and the check
passing, the unknown wire does not stay unsolved: `solveR1C` succeeds and
marks it solved (with value zero). -/
theorem solveR1C_bzero_sets_wire_zero :
    wBzeroSolver.solved 1 = false
    ∧ (wBzeroSolver.solveR1C 0 wBzeroR1C).map (fun p => p.1.solved 1) = some true
    ∧ (wBzeroSolver.solveR1C 0 wBzeroR1C).map (fun p => p.2.isNone) = some true := by
  refine ⟨rfl, ?_, ?_⟩ <;> decide

/-- C5: unknown on side `O`: the raw value is `a*b - c` with no zero-case
split, then divided by the unknown coefficient and set on the wire:
identity for coefficient id one, negation for minus-one, fatal for zero,
general field division otherwise. -/
theorem solveR1C_unknown_O {q : ℕ} [Fact (Nat.Prime q)] (s : Solver q)
    (cID : ℕ) (r : R1C) (a1 b1 c1 : ZMod q) (t : Term)
    (hL : s.processLExp r.L (s.aVec cID) 1 0 defaultTerm = some (a1, 0, defaultTerm))
    (hR : s.processLExp r.R (s.bVec cID) 2 0 defaultTerm = some (b1, 0, defaultTerm))
    (hO : s.processLExp r.O (s.cVec cID) 3 0 defaultTerm = some (c1, 3, t))
    (hw : s.solved t.vID = false) :
    (t.cID = 1 →
      ∃ s', s.solveR1C cID r = some (s', none)
        ∧ s'.values t.vID = a1 * b1 - c1 ∧ s'.solved t.vID = true
        ∧ s'.cVec cID = a1 * b1)
    ∧ (t.cID = 3 →
      ∃ s', s.solveR1C cID r = some (s', none)
        ∧ s'.values t.vID = -(a1 * b1 - c1) ∧ s'.solved t.vID = true
        ∧ s'.cVec cID = a1 * b1)
    ∧ (t.cID = 0 → s.solveR1C cID r = none)
    ∧ (t.cID ≠ 0 → t.cID ≠ 1 → t.cID ≠ 3 →
      ∃ s', s.solveR1C cID r = some (s', none)
        ∧ s'.values t.vID = (a1 * b1 - c1) / s.coefficients t.cID
        ∧ s'.solved t.vID = true ∧ s'.cVec cID = a1 * b1) := by
  have hred : s.solveR1C cID r
      = finishSolve s cID a1 b1 (c1 + (a1 * b1 - c1)) t (a1 * b1 - c1) := by
    simp only [Solver.solveR1C, hL, hR, hO]
    norm_num
  have habc : c1 + (a1 * b1 - c1) = a1 * b1 := by ring
  have hfin : ∀ w, divByCoeff s.coefficients (a1 * b1 - c1) t.cID = some w →
      ∃ s', s.solveR1C cID r = some (s', none)
        ∧ s'.values t.vID = w ∧ s'.solved t.vID = true
        ∧ s'.cVec cID = a1 * b1 := by
    intro w hdiv
    refine ⟨{ writeABC s cID a1 b1 (c1 + (a1 * b1 - c1)) with
        values := Function.update (writeABC s cID a1 b1 (c1 + (a1 * b1 - c1))).values t.vID w
        solved := Function.update (writeABC s cID a1 b1 (c1 + (a1 * b1 - c1))).solved t.vID true
        nbSolved := (writeABC s cID a1 b1 (c1 + (a1 * b1 - c1))).nbSolved + 1 },
      ?_, by simp, by simp, by simp [writeABC, habc]⟩
    rw [hred]
    simp only [finishSolve, hdiv, Solver.set, writeABC, hw]
    norm_num
  refine ⟨fun h1 => ?_, fun h3 => ?_, fun h0 => ?_, fun hn0 hn1 hn3 => ?_⟩
  · exact hfin _ (by rw [h1]; rfl)
  · exact hfin _ (by rw [h3]; rfl)
  · rw [hred]
    simp [finishSolve, divByCoeff, h0]
  · refine hfin _ ?_
    rcases ht : t.cID with _ | _ | _ | _ | n
    · exact absurd ht hn0
    · exact absurd ht hn1
    · simp [divByCoeff]
    · exact absurd ht hn3
    · simp [divByCoeff]

/-- Witness state for C5: wires 0 and 1 solved with values 2 and 3, wire
2 unsolved. -/
def wOSolver : Solver 5 :=
  { values := fun i => if i = 0 then 2 else if i = 1 then 3 else 0
    solved := fun i => i < 2
    nbSolved := 2
    coefficients := fun i => if i = 1 then 1 else 0
    aVec := fun _ => 0
    bVec := fun _ => 0
    cVec := fun _ => 0
    mHintsFunctions := fun _ => none
    mDebug := fun _ => none
    debugInfo := fun _ => ⟨"", [], []⟩ }

/-- Witness constraint for C5: `w0 * w1 = w2` with `w2` unknown. -/
def wOR1C : R1C := ⟨[⟨1, 0, false⟩], [⟨1, 1, false⟩], [⟨1, 2, false⟩]⟩

/-- Witness for C5 at `2 * 3 = w2` over `ZMod 5`: the unknown output wire
is set to `2*3 - 0 = 1` and the `c` vector records `a*b`. -/
theorem solveR1C_unknown_O_witness :
    wOSolver.processLExp wOR1C.O (wOSolver.cVec 0) 3 0 defaultTerm
      = some (0, 3, ⟨1, 2, false⟩)
    ∧ wOSolver.solved 2 = false
    ∧ ∃ s', wOSolver.solveR1C 0 wOR1C = some (s', none)
        ∧ s'.values 2 = 2 * 3 - 0 ∧ s'.solved 2 = true ∧ s'.cVec 0 = 2 * 3 := by
  have h := (solveR1C_unknown_O wOSolver 0 wOR1C 2 3 0 ⟨1, 2, false⟩
    (by decide) (by decide) (by decide) rfl).1 rfl
  obtain ⟨s', h1, h2, h3, h4⟩ := h
  exact ⟨by decide, rfl, s', h1, h2, h3, h4⟩

/-- Input accumulation of the bls12-381 `solver.solveWithHint`: each
linear expression is summed term by term (constants add their table
entry, other terms go through `accumulateInto`); no solved check and no
recursion happens here. -/
def Solver.hintInput {q : ℕ} (s : Solver q) (le : List Term) : ZMod q :=
  le.foldl (fun v term =>
    if term.isConstant then v + s.coefficients term.cID
    else s.accumulateInto term v) 0

/-- Marshal all hint inputs to big integers via the canonical
representative (`v.BigInt(inputs[i])`). -/
def Solver.hintInputs {q : ℕ} (s : Solver q) (h : HintMapping) : List ℤ :=
  h.inputs.map (fun le => ((s.hintInput le).val : ℤ))

/-- Output write-back loop of the bls12-381 `solver.solveWithHint`: each
big integer is reduced into the field (`v.SetBigInt(outputs[i])`) and
`set` on the next consecutive output wire. -/
def Solver.setConsecutive {q : ℕ} (s : Solver q) (start : ℕ) :
    List ℤ → Option (Solver q)
  | [] => some s
  | o :: rest =>
    match s.set start (o : ZMod q) with
    | none => none
    | some s1 => s1.setConsecutive (start + 1) rest

/-- The bls12-381 `solver.solveWithHint`: look up the hint function
(recoverable error when missing), evaluate and marshal the inputs, invoke
the function, write every output buffer entry back onto the consecutive
output wires, then propagate the function's error.  There is no
already-solved short-circuit and no recursive resolution of unsolved
input wires in this implementation. -/
def Solver.solveWithHint {q : ℕ} (s : Solver q) (h : HintMapping) :
    Option (Solver q × Option String) :=
  match s.mHintsFunctions h.hintID with
  | none => some (s, some "missing hint function")
  | some f =>
    let nbOutputs := h.outEnd - h.outStart
    let res := f (q : ℤ) (s.hintInputs h) nbOutputs
    match s.setConsecutive h.outStart ((List.range nbOutputs).map (fun i => res.1.getD i 0)) with
    | none => none
    | some s1 => some (s1, res.2)

/-- Writing a block of outputs on consecutive unsolved wires succeeds,
marks exactly those wires solved with the reduced values, bumps the
solved count by the block length, and leaves all other wires unchanged. -/
theorem setConsecutive_spec {q : ℕ} (L : List ℤ) : ∀ (s : Solver q) (start : ℕ),
    (∀ i, i < L.length → s.solved (start + i) = false) →
    ∃ s', s.setConsecutive start L = some s'
      ∧ (∀ i, i < L.length → s'.solved (start + i) = true
          ∧ s'.values (start + i) = ((L.getD i 0 : ℤ) : ZMod q))
      ∧ (∀ w, (∀ i, i < L.length → w ≠ start + i) →
          s'.solved w = s.solved w ∧ s'.values w = s.values w)
      ∧ s'.nbSolved = s.nbSolved + L.length
      ∧ s'.coefficients = s.coefficients
      ∧ s'.mHintsFunctions = s.mHintsFunctions := by
  induction L with
  | nil =>
    intro s start _
    exact ⟨s, rfl, fun i hi => absurd hi (by simp), fun w _ => ⟨rfl, rfl⟩, rfl, rfl, rfl⟩
  | cons o rest ih =>
    intro s start hfree
    have h0 : s.solved start = false := by simpa using hfree 0 (by simp)
    set s1 : Solver q := { s with
      values := Function.update s.values start ((o : ℤ) : ZMod q)
      solved := Function.update s.solved start true
      nbSolved := s.nbSolved + 1 } with hs1
    have hset : s.set start ((o : ℤ) : ZMod q) = some s1 := by
      simp [Solver.set, h0, hs1]
    have hfree1 : ∀ i, i < rest.length → s1.solved (start + 1 + i) = false := by
      intro i hi
      have hne : start + 1 + i ≠ start := by omega
      have := hfree (i + 1) (by simpa using Nat.succ_lt_succ hi)
      simpa [hs1, Function.update_noteq hne, Nat.add_assoc, Nat.add_comm 1 i] using this
    obtain ⟨s', hrun, hin, hout, hcount, hcoe, hfn⟩ := ih s1 (start + 1) hfree1
    refine ⟨s', ?_, ?_, ?_, ?_, ?_, ?_⟩
    · simp [Solver.setConsecutive, hset, hrun]
    · intro i hi
      cases i with
      | zero =>
        have hself : ∀ j, j < rest.length → start + 0 ≠ start + 1 + j := by
          intro j _; omega
        obtain ⟨hsv, hvv⟩ := hout (start + 0) hself
        constructor
        · rw [hsv]; simp [hs1]
        · rw [hvv]; simp [hs1]
      | succ i =>
        have hi' : i < rest.length := by
          simp only [List.length_cons] at hi; omega
        obtain ⟨hsv, hvv⟩ := hin i hi'
        have harith : start + 1 + i = start + (i + 1) := by omega
        rw [harith] at hsv hvv
        exact ⟨hsv, by simpa using hvv⟩
    · intro w hw
      have hw1 : ∀ i, i < rest.length → w ≠ start + 1 + i := by
        intro i hi
        have := hw (i + 1) (by simp only [List.length_cons]; omega)
        omega
      obtain ⟨hsv, hvv⟩ := hout w hw1
      have hwne : w ≠ start := by
        have := hw 0 (by simp)
        omega
      rw [hsv, hvv]
      simp [hs1, Function.update_noteq hwne]
    · rw [hcount]; simp [hs1]; omega
    · rw [hcoe]
    · rw [hfn]

/-- C10: when the hint function reports an error, the bls12-381 resolver
still reduces every output buffer entry and sets it on the corresponding
output wire (marking it solved) before propagating the error. -/
theorem solveWithHint_error_still_sets {q : ℕ} (s : Solver q) (h : HintMapping)
    (f : HintFn) (outs : List ℤ) (msg : String)
    (hf : s.mHintsFunctions h.hintID = some f)
    (hrun : f (q : ℤ) (s.hintInputs h) (h.outEnd - h.outStart) = (outs, some msg))
    (hfree : ∀ i, i < h.outEnd - h.outStart → s.solved (h.outStart + i) = false) :
    ∃ s', s.solveWithHint h = some (s', some msg)
      ∧ (∀ i, i < h.outEnd - h.outStart →
          s'.solved (h.outStart + i) = true
          ∧ s'.values (h.outStart + i) = ((outs.getD i 0 : ℤ) : ZMod q))
      ∧ s'.nbSolved = s.nbSolved + (h.outEnd - h.outStart) := by
  have hpadlen : ((List.range (h.outEnd - h.outStart)).map (fun i => outs.getD i 0)).length
      = h.outEnd - h.outStart := by simp
  obtain ⟨s', hrun', hin, _, hcount, -⟩ :=
    setConsecutive_spec ((List.range (h.outEnd - h.outStart)).map (fun i => outs.getD i 0))
      s h.outStart (by rw [hpadlen]; exact hfree)
  refine ⟨s', ?_, ?_, by rw [hcount, hpadlen]⟩
  · simp only [Solver.solveWithHint, hf, hrun, hrun']
  · intro i hi
    obtain ⟨hsv, hvv⟩ := hin i (by rwa [hpadlen])
    refine ⟨hsv, ?_⟩
    rw [hvv]
    have : ((List.range (h.outEnd - h.outStart)).map (fun i => outs.getD i 0)).getD i 0
        = outs.getD i 0 := by
      rw [List.getD_eq_getElem?_getD, List.getElem?_map]
      simp [List.getElem?_range hi]
    rw [this]

/-- Witness state for the hint claims: five wires, none solved except
wire 0; hint id 0 echoes its inputs, hint id 1 errors after writing 7. -/
def wHintSolver : Solver 5 :=
  { values := fun _ => 0
    solved := fun i => i == 0
    nbSolved := 1
    coefficients := fun i => if i = 1 then 1 else 0
    aVec := fun _ => 0
    bVec := fun _ => 0
    cVec := fun _ => 0
    mHintsFunctions := fun i =>
      if i = 0 then some (fun _ ins _ => (ins, none))
      else if i = 1 then some (fun _ _ _ => ([7], some "hint failed"))
      else none
    mDebug := fun _ => none
    debugInfo := fun _ => ⟨"", [], []⟩ }

/-- Hint mapping writing one output to the already-solved wire 0. -/
def wHintSolvedOut : HintMapping := ⟨0, [], 0, 1⟩

/-- Hint mapping whose input reads the unsolved non-hint wire 2 and whose
output is wire 3. -/
def wHintUnsolvedIn : HintMapping := ⟨0, [[⟨1, 2, false⟩]], 3, 4⟩

/-- Erroring hint mapping with output wire 4. -/
def wHintErr : HintMapping := ⟨1, [], 4, 5⟩

/-- C1 counterexample: in the bls12-381 resolver a hint whose first
output wire is already solved is not a successful no-op: the registered
function is looked up and invoked and the write-back double-sets the
wire, which is fatal. -/
theorem solveWithHint_bls_no_short_circuit :
    wHintSolver.solved wHintSolvedOut.outStart = true
    ∧ (wHintSolver.mHintsFunctions wHintSolvedOut.hintID).isSome = true
    ∧ wHintSolver.solveWithHint wHintSolvedOut = none :=
  ⟨rfl, rfl, rfl⟩

/-- C2 counterexample: in the bls12-381 resolver an input term over an
unsolved wire that is not any hint's output does not fail fatally: the
zero-initialised wire value is accumulated and the hint succeeds. -/
theorem solveWithHint_bls_no_unsolved_check :
    wHintSolver.solved 2 = false
    ∧ (wHintSolver.solveWithHint wHintUnsolvedIn).map (fun p => p.2) = some none
    ∧ (wHintSolver.solveWithHint wHintUnsolvedIn).map (fun p => p.1.solved 3) = some true := by
  refine ⟨rfl, ?_, ?_⟩ <;> decide

/-- Witness for C10: hint id 1 errors with message `hint failed` after
writing `7`; wire 4 is nevertheless set to `7 mod 5 = 2`. -/
theorem solveWithHint_error_still_sets_witness :
    wHintSolver.solved 4 = false
    ∧ ∃ s', wHintSolver.solveWithHint wHintErr = some (s', some "hint failed")
        ∧ s'.solved 4 = true ∧ s'.values 4 = ((7 : ℤ) : ZMod 5)
        ∧ s'.nbSolved = 2 := by
  obtain ⟨s', hrun, hin, hcount⟩ := solveWithHint_error_still_sets wHintSolver wHintErr
    (fun _ _ _ => ([7], some "hint failed")) [7] "hint failed" rfl rfl
    (by
      intro i hi
      have h1 : i = 0 := by
        have h2 : i < 1 := by simpa [wHintErr] using hi
        omega
      subst h1
      rfl)
  obtain ⟨hsv, hvv⟩ := hin 0 (by decide)
  exact ⟨rfl, s', hrun, hsv, hvv, hcount⟩

/-- A bn254 hint (`constraint.Hint`): function id, input linear
expressions and the explicit list of output wires. -/
structure Hint where
  id : ℕ
  inputs : List (List Term)
  wires : List ℕ

/-- State of the bn254 solution (`solution` in solution.go): wire values
and solved flags, solved counter, coefficient table, the hint-function
registry and the wire-id-to-hint map `mHints`. -/
structure Solution (q : ℕ) where
  values : ℕ → ZMod q
  coefficients : ℕ → ZMod q
  solved : ℕ → Bool
  nbSolved : ℕ
  mHintsFunctions : ℕ → Option HintFn
  mHints : ℕ → Option Hint

/-- `solution.set`: identical to the bls12-381 `solver.set`. -/
def Solution.set {q : ℕ} (s : Solution q) (id : ℕ) (value : ZMod q) :
    Option (Solution q) :=
  if s.solved id then none
  else some { s with
    values := Function.update s.values id value
    solved := Function.update s.solved id true
    nbSolved := s.nbSolved + 1 }

/-- `solution.accumulateInto`: same dispatch as the bls12-381 version. -/
def Solution.accumulateInto {q : ℕ} (s : Solution q) (t : Term) (r : ZMod q) : ZMod q :=
  if t.isConstant then r + s.coefficients t.cID
  else match t.cID with
  | 0 => r
  | 1 => r + s.values t.vID
  | 2 => r + 2 * s.values t.vID
  | 3 => r - s.values t.vID
  | _ => r + s.coefficients t.cID * s.values t.vID

/-- The type of the recursive callee threaded through the bn254 input
evaluation (the smaller-fuel `solveWithHint`). -/
abbrev SolveFn (q : ℕ) := Solution q → ℕ → Hint → Option (Solution q × Option String)

/-- The `recursiveSolve` closure of the bn254 `solveWithHint`: constants
and solved wires pass through; an unsolved wire that is some hint's
output is resolved by the callee; an unsolved non-hint wire is fatal. -/
def recursiveSolve {q : ℕ} (solveFn : SolveFn q) (s : Solution q) (t : Term) :
    Option (Solution q × Option String) :=
  if t.isConstant then some (s, none)
  else if s.solved t.vID then some (s, none)
  else match s.mHints t.vID with
    | some hm => solveFn s t.vID hm
    | none => none

/-- Per-expression input loop of the bn254 `solveWithHint`: each term is
first pushed through `recursiveSolve` (errors abort the expression; the
state mutated so far is kept), then accumulated against the updated
state. -/
def evalInputTerms {q : ℕ} (solveFn : SolveFn q) :
    Solution q → List Term → ZMod q → Option (Solution q × Option String × ZMod q)
  | s, [], v => some (s, none, v)
  | s, t :: rest, v =>
    match recursiveSolve solveFn s t with
    | none => none
    | some (s1, some e) => some (s1, some e, v)
    | some (s1, none) => evalInputTerms solveFn s1 rest (s1.accumulateInto t v)

/-- All-inputs loop of the bn254 `solveWithHint`: evaluate each linear
expression in order and marshal its value to a big integer. -/
def evalInputs {q : ℕ} (solveFn : SolveFn q) :
    Solution q → List (List Term) → Option (Solution q × Option String × List ℤ)
  | s, [] => some (s, none, [])
  | s, le :: rest =>
    match evalInputTerms solveFn s le 0 with
    | none => none
    | some (s1, some e, _) => some (s1, some e, [])
    | some (s1, none, v) =>
      match evalInputs solveFn s1 rest with
      | none => none
      | some (s2, some e, _) => some (s2, some e, [])
      | some (s2, none, ins) => some (s2, none, ((v.val : ℤ) :: ins))

/-- Output write-back of the bn254 `solveWithHint`: reduce each buffer
entry into the field and `set` it on the declared output wire. -/
def Solution.setOutputs {q : ℕ} : Solution q → List ℕ → List ℤ → Option (Solution q)
  | s, [], _ => some s
  | s, w :: ws, outs =>
    match s.set w ((outs.headD 0 : ℤ) : ZMod q) with
    | none => none
    | some s1 => s1.setOutputs ws outs.tail

/-- The bn254 `solution.solveWithHint(vID, h)`, with a fuel bound
standing for the acyclicity of the hint dependency DAG (fuel exhaustion
is modelled as the fatal outcome): short-circuit when `vID` is already
solved; recoverable error when the function is missing; otherwise
evaluate the inputs with depth-first recursive resolution, invoke the
function, set all declared output wires and propagate its error. -/
def Solution.solveWithHint {q : ℕ} : ℕ → Solution q → ℕ → Hint →
    Option (Solution q × Option String)
  | 0, _, _, _ => none
  | fuel + 1, s, vID, h =>
    if s.solved vID then some (s, none)
    else match s.mHintsFunctions h.id with
    | none => some (s, some "missing hint function")
    | some f =>
      match evalInputs (fun s1 v1 h1 => Solution.solveWithHint fuel s1 v1 h1) s h.inputs with
      | none => none
      | some (s1, some e, _) => some (s1, some e)
      | some (s1, none, ins) =>
        let res := f (q : ℤ) ins h.wires.length
        match s1.setOutputs h.wires res.1 with
        | none => none
        | some s2 => some (s2, res.2)

/-- Evolution relation of the bn254 solution state: solved flags only
grow and the static wire-to-hint map is unchanged. -/
def MonoSol {q : ℕ} (s s' : Solution q) : Prop :=
  (∀ w, s.solved w = true → s'.solved w = true) ∧ s'.mHints = s.mHints

theorem monoSol_refl {q : ℕ} (s : Solution q) : MonoSol s s := ⟨fun _ h => h, rfl⟩

theorem monoSol_trans {q : ℕ} {s1 s2 s3 : Solution q}
    (h12 : MonoSol s1 s2) (h23 : MonoSol s2 s3) : MonoSol s1 s3 :=
  ⟨fun w h => h23.1 w (h12.1 w h), h23.2.trans h12.2⟩

theorem set_monoSol {q : ℕ} {s s' : Solution q} {id : ℕ} {v : ZMod q}
    (h : s.set id v = some s') : MonoSol s s' := by
  rw [Solution.set] at h
  by_cases hs : s.solved id = true
  · simp [hs] at h
  · simp only [hs, Bool.false_eq_true] at h
    rw [if_neg (by simp [hs])] at h
    injection h with h
    subst h
    refine ⟨fun w hw => ?_, rfl⟩
    by_cases hw0 : w = id
    · subst hw0; simp
    · simpa [Function.update_noteq hw0] using hw

theorem setOutputs_monoSol {q : ℕ} : ∀ (ws : List ℕ) (s : Solution q) (outs : List ℤ)
    (s' : Solution q), s.setOutputs ws outs = some s' → MonoSol s s' := by
  intro ws
  induction ws with
  | nil =>
    intro s outs s' h
    simp only [Solution.setOutputs] at h
    injection h with h
    subst h
    exact monoSol_refl s
  | cons w ws ih =>
    intro s outs s' h
    simp only [Solution.setOutputs] at h
    rcases hset : s.set w ((outs.headD 0 : ℤ) : ZMod q) with _ | s1
    · rw [hset] at h; exact absurd h (by simp)
    · rw [hset] at h
      exact monoSol_trans (set_monoSol hset) (ih s1 outs.tail s' h)

theorem setOutputs_solved {q : ℕ} : ∀ (ws : List ℕ) (s : Solution q) (outs : List ℤ)
    (s' : Solution q), s.setOutputs ws outs = some s' →
    ∀ w ∈ ws, s'.solved w = true := by
  intro ws
  induction ws with
  | nil => intro s outs s' _ w hw; exact absurd hw (by simp)
  | cons w0 ws ih =>
    intro s outs s' h w hw
    simp only [Solution.setOutputs] at h
    rcases hset : s.set w0 ((outs.headD 0 : ℤ) : ZMod q) with _ | s1
    · rw [hset] at h; exact absurd h (by simp)
    · rw [hset] at h
      rcases List.mem_cons.1 hw with hw0 | hwrest
      · subst hw0
        have h1 : s1.solved w = true := by
          rw [Solution.set] at hset
          by_cases hs : s.solved w = true
          · simp [hs] at hset
          · rw [if_neg (by simp [hs])] at hset
            injection hset with hset
            subst hset
            simp
        exact (setOutputs_monoSol ws s1 outs.tail s' h).1 w h1
      · exact ih s1 outs.tail s' h w hwrest

/-- The invariant relating `mHints` to hint outputs: a wire mapped to a
hint is among that hint's declared output wires. -/
def HintWiresInv {q : ℕ} (s : Solution q) : Prop :=
  ∀ w hm, s.mHints w = some hm → w ∈ Hint.wires hm

theorem hintWiresInv_mono {q : ℕ} {s s' : Solution q}
    (hmono : MonoSol s s') (hInv : HintWiresInv s) : HintWiresInv s' := by
  intro w hm h
  exact hInv w hm (by rw [← hmono.2]; exact h)

theorem recursiveSolve_monoSol {q : ℕ} (solveFn : SolveFn q)
    (hmono : ∀ s v h out, solveFn s v h = some out → MonoSol s out.1)
    (s : Solution q) (t : Term) (out : Solution q × Option String)
    (h : recursiveSolve solveFn s t = some out) : MonoSol s out.1 := by
  simp only [recursiveSolve] at h
  split at h
  · injection h with h
    subst h
    exact monoSol_refl s
  · split at h
    · injection h with h
      subst h
      exact monoSol_refl s
    · split at h
      · next hm heq => exact hmono s t.vID hm out h
      · exact absurd h (by simp)

theorem evalInputTerms_monoSol {q : ℕ} (solveFn : SolveFn q)
    (hmono : ∀ s v h out, solveFn s v h = some out → MonoSol s out.1) :
    ∀ (ts : List Term) (s : Solution q) (v : ZMod q) out,
      evalInputTerms solveFn s ts v = some out → MonoSol s out.1 := by
  intro ts
  induction ts with
  | nil =>
    intro s v out h
    simp only [evalInputTerms] at h
    injection h with h
    subst h
    exact monoSol_refl s
  | cons t rest ih =>
    intro s v out h
    simp only [evalInputTerms] at h
    split at h
    · exact absurd h (by simp)
    · next s1 e heq =>
      injection h with h
      subst h
      exact recursiveSolve_monoSol solveFn hmono s t _ heq
    · next s1 heq =>
      exact monoSol_trans (recursiveSolve_monoSol solveFn hmono s t _ heq)
        (ih s1 _ out h)

theorem evalInputs_monoSol {q : ℕ} (solveFn : SolveFn q)
    (hmono : ∀ s v h out, solveFn s v h = some out → MonoSol s out.1) :
    ∀ (les : List (List Term)) (s : Solution q) out,
      evalInputs solveFn s les = some out → MonoSol s out.1 := by
  intro les
  induction les with
  | nil =>
    intro s out h
    simp only [evalInputs] at h
    injection h with h
    subst h
    exact monoSol_refl s
  | cons le rest ih =>
    intro s out h
    simp only [evalInputs] at h
    split at h
    · exact absurd h (by simp)
    · next s1 e v heq =>
      injection h with h
      subst h
      exact evalInputTerms_monoSol solveFn hmono le s 0 _ heq
    · next s1 v heq =>
      split at h
      · exact absurd h (by simp)
      · next s2 e2 ins2 heq2 =>
        injection h with h
        subst h
        exact monoSol_trans (evalInputTerms_monoSol solveFn hmono le s 0 _ heq)
          (ih s1 (s2, some e2, ins2) heq2)
      · next s2 ins2 heq2 =>
        injection h with h
        subst h
        exact monoSol_trans (evalInputTerms_monoSol solveFn hmono le s 0 _ heq)
          (ih s1 (s2, none, ins2) heq2)

theorem solveWithHint_monoSol {q : ℕ} : ∀ (fuel : ℕ) (s : Solution q) (v : ℕ)
    (h : Hint) out, Solution.solveWithHint fuel s v h = some out → MonoSol s out.1 := by
  intro fuel
  induction fuel with
  | zero =>
    intro s v h out hrun
    exact absurd hrun (by simp [Solution.solveWithHint])
  | succ fuel ih =>
    intro s v h out hrun
    simp only [Solution.solveWithHint] at hrun
    split at hrun
    · injection hrun with hrun
      subst hrun
      exact monoSol_refl s
    · split at hrun
      · injection hrun with hrun
        subst hrun
        exact monoSol_refl s
      · next f hident =>
        split at hrun
        · exact absurd hrun (by simp)
        · next s1 e ins heqev =>
          injection hrun with hrun
          subst hrun
          exact evalInputs_monoSol _ (fun s' v' h' out' hr => ih s' v' h' out' hr)
            h.inputs s _ heqev
        · next s1 ins heqev =>
          split at hrun
          · exact absurd hrun (by simp)
          · next s2 heqset =>
            injection hrun with hrun
            subst hrun
            exact monoSol_trans
              (evalInputs_monoSol _ (fun s' v' h' out' hr => ih s' v' h' out' hr)
                h.inputs s _ heqev)
              (setOutputs_monoSol _ _ _ _ heqset)

/-- A successful, error-free run of the bn254 `solveWithHint` leaves the
requested wire solved, provided it is among the hint's outputs or was
already solved. -/
theorem solveWithHint_solves {q : ℕ} : ∀ (fuel : ℕ) (s : Solution q) (v : ℕ)
    (h : Hint) (s' : Solution q), (s.solved v = true ∨ v ∈ Hint.wires h) →
    Solution.solveWithHint fuel s v h = some (s', none) → s'.solved v = true := by
  intro fuel s v h s' hv hrun
  cases fuel with
  | zero => exact absurd hrun (by simp [Solution.solveWithHint])
  | succ fuel =>
    simp only [Solution.solveWithHint] at hrun
    split at hrun
    · next hs =>
      injection hrun with hrun
      injection hrun with h1 h2
      subst h1
      exact hs
    · next hs =>
      have hvw : v ∈ Hint.wires h := by
        rcases hv with hv | hv
        · exact absurd hv hs
        · exact hv
      split at hrun
      · exact absurd hrun (by simp)
      · next f hident =>
        split at hrun
        · exact absurd hrun (by simp)
        · next s1 e ins heqev => exact absurd hrun (by simp)
        · next s1 ins heqev =>
          split at hrun
          · exact absurd hrun (by simp)
          · next s2 heqset =>
            injection hrun with hrun
            injection hrun with h1 h2
            subst h1
            exact setOutputs_solved h.wires s1 _ s2 heqset v hvw

theorem recursiveSolve_ok {q : ℕ} (solveFn : SolveFn q)
    (hmono : ∀ s v h out, solveFn s v h = some out → MonoSol s out.1)
    (hsolve : ∀ (s : Solution q) v hm s1, HintWiresInv s → s.mHints v = some hm →
        solveFn s v hm = some (s1, none) → s1.solved v = true)
    (s : Solution q) (t : Term) (s1 : Solution q) (hInv : HintWiresInv s)
    (hrs : recursiveSolve solveFn s t = some (s1, none)) :
    MonoSol s s1 ∧ (t.isConstant = false → s1.solved t.vID = true) := by
  simp only [recursiveSolve] at hrs
  split at hrs
  · next hc =>
    injection hrs with hrs
    injection hrs with h1 h2
    subst h1
    exact ⟨monoSol_refl s, fun hfalse => absurd hc (by rw [hfalse]; simp)⟩
  · split at hrs
    · next hs =>
      injection hrs with hrs
      injection hrs with h1 h2
      subst h1
      exact ⟨monoSol_refl s, fun _ => hs⟩
    · split at hrs
      · next hm heq =>
        exact ⟨hmono s t.vID hm (s1, none) hrs,
          fun _ => hsolve s t.vID hm s1 hInv heq hrs⟩
      · exact absurd hrs (by simp)

theorem evalInputTerms_solves {q : ℕ} (solveFn : SolveFn q)
    (hmono : ∀ s v h out, solveFn s v h = some out → MonoSol s out.1)
    (hsolve : ∀ (s : Solution q) v hm s1, HintWiresInv s → s.mHints v = some hm →
        solveFn s v hm = some (s1, none) → s1.solved v = true) :
    ∀ (ts : List Term) (s : Solution q) (v : ZMod q) (s' : Solution q) (v' : ZMod q),
      HintWiresInv s → evalInputTerms solveFn s ts v = some (s', none, v') →
      MonoSol s s' ∧ ∀ t ∈ ts, t.isConstant = false → s'.solved t.vID = true := by
  intro ts
  induction ts with
  | nil =>
    intro s v s' v' hInv h
    simp only [evalInputTerms] at h
    injection h with h
    injection h with h1 h2
    subst h1
    exact ⟨monoSol_refl s, fun t ht => absurd ht (by simp)⟩
  | cons t rest ih =>
    intro s v s' v' hInv h
    simp only [evalInputTerms] at h
    split at h
    · exact absurd h (by simp)
    · next s1 e heq => exact absurd h (by simp)
    · next s1 heq =>
      obtain ⟨hm1, hsolved1⟩ := recursiveSolve_ok solveFn hmono hsolve s t s1 hInv heq
      obtain ⟨hm2, hrest⟩ := ih s1 (s1.accumulateInto t v) s' v'
        (hintWiresInv_mono hm1 hInv) h
      refine ⟨monoSol_trans hm1 hm2, ?_⟩
      intro t' ht' hc'
      rcases List.mem_cons.1 ht' with h1 | h1
      · subst h1
        exact hm2.1 _ (hsolved1 hc')
      · exact hrest t' h1 hc'

theorem evalInputs_solves {q : ℕ} (solveFn : SolveFn q)
    (hmono : ∀ s v h out, solveFn s v h = some out → MonoSol s out.1)
    (hsolve : ∀ (s : Solution q) v hm s1, HintWiresInv s → s.mHints v = some hm →
        solveFn s v hm = some (s1, none) → s1.solved v = true) :
    ∀ (les : List (List Term)) (s : Solution q) (s' : Solution q) (ins : List ℤ),
      HintWiresInv s → evalInputs solveFn s les = some (s', none, ins) →
      MonoSol s s' ∧ ∀ le ∈ les, ∀ t ∈ le, t.isConstant = false →
        s'.solved t.vID = true := by
  intro les
  induction les with
  | nil =>
    intro s s' ins hInv h
    simp only [evalInputs] at h
    injection h with h
    injection h with h1 h2
    subst h1
    exact ⟨monoSol_refl s, fun le hle => absurd hle (by simp)⟩
  | cons le rest ih =>
    intro s s' ins hInv h
    simp only [evalInputs] at h
    split at h
    · exact absurd h (by simp)
    · next s1 e v heq => exact absurd h (by simp)
    · next s1 v heq =>
      obtain ⟨hm1, hle⟩ := evalInputTerms_solves solveFn hmono hsolve le s 0 s1 v hInv heq
      split at h
      · exact absurd h (by simp)
      · next s2 e2 ins2 heq2 => exact absurd h (by simp)
      · next s2 ins2 heq2 =>
        injection h with h
        injection h with h1 h2
        subst h1
        obtain ⟨hm2, hrest⟩ := ih s1 s2 ins2 (hintWiresInv_mono hm1 hInv) heq2
        refine ⟨monoSol_trans hm1 hm2, ?_⟩
        intro le' hle' t ht hc
        rcases List.mem_cons.1 hle' with h1 | h1
        · subst h1
          exact hm2.1 _ (hle t ht hc)
        · exact hrest le' h1 t ht hc

/-- C1 (amended): the bn254 resolver short-circuits: when the requested
wire is already marked solved, `solveWithHint` returns success with the
state untouched, without looking up or invoking the hint function (the
hint and registry are arbitrary, and may even be unregistered). -/
theorem solveWithHint_short_circuit_bn254 {q : ℕ} (fuel : ℕ) (s : Solution q)
    (vID : ℕ) (h : Hint) (hs : s.solved vID = true) :
    Solution.solveWithHint (fuel + 1) s vID h = some (s, none) := by
  simp [Solution.solveWithHint, hs]

/-- Chained-hint fixture for the bn254 witnesses: wire 0 is the single
output of hint 0, which ignores its inputs and returns 4. -/
def wChainHint : Hint := ⟨0, [], [0]⟩

/-- Fixture state: nothing solved; hint 0 registered; `mHints` maps wire
0 to `wChainHint`. -/
def wChainSolution : Solution 5 :=
  { values := fun _ => 0
    coefficients := fun i => if i = 1 then 1 else 0
    solved := fun _ => false
    nbSolved := 0
    mHintsFunctions := fun i => if i = 0 then some (fun _ _ _ => ([4], none)) else none
    mHints := fun w => if w = 0 then some wChainHint else none }

/-- Fixture state with wire 0 pre-solved, for the C1 witness. -/
def wShortSolution : Solution 5 :=
  { wChainSolution with solved := fun i => i == 0, nbSolved := 1 }

/-- Witness for C1 (amended): with wire 0 already solved the bn254
resolver is a successful no-op even for the unregistered hint id 99. -/
theorem solveWithHint_short_circuit_bn254_witness :
    wShortSolution.solved 0 = true
    ∧ Solution.solveWithHint 1 wShortSolution 0 ⟨99, [], [0]⟩
        = some (wShortSolution, none) :=
  ⟨rfl, solveWithHint_short_circuit_bn254 0 wShortSolution 0 ⟨99, [], [0]⟩ rfl⟩

/-- C2 (amended): in the bn254 resolver, a successful error-free input
evaluation leaves every non-constant input wire solved (unsolved wires
that are hint outputs having been resolved recursively, depth first,
before their term is accumulated), and a term over an unsolved wire that
is not any hint's output is fatal. -/
theorem solveWithHint_recursive_resolution_bn254 {q : ℕ} (fuel : ℕ)
    (s s' : Solution q) (les : List (List Term)) (ins : List ℤ)
    (hInv : HintWiresInv s)
    (hev : evalInputs (fun s1 v1 h1 => Solution.solveWithHint fuel s1 v1 h1) s les
      = some (s', none, ins)) :
    (∀ le ∈ les, ∀ t ∈ le, t.isConstant = false → s'.solved t.vID = true)
    ∧ (∀ (f : SolveFn q) (t : Term), t.isConstant = false → s.solved t.vID = false →
        s.mHints t.vID = none → recursiveSolve f s t = none) := by
  constructor
  · exact (evalInputs_solves _
      (fun s1 v1 h1 out hr => solveWithHint_monoSol fuel s1 v1 h1 out hr)
      (fun s1 v1 hm1 s2 hI hmeq hr =>
        solveWithHint_solves fuel s1 v1 hm1 s2 (Or.inr (hI v1 hm1 hmeq)) hr)
      les s s' ins hInv hev).2
  · intro f t hc hs hm
    simp [recursiveSolve, hc, hs, hm]

/-- Expected final state of the C2 witness run: wire 0 set to 4. -/
def wChainFinal : Solution 5 :=
  { wChainSolution with
    values := Function.update wChainSolution.values 0 ((4 : ℤ) : ZMod 5)
    solved := Function.update wChainSolution.solved 0 true
    nbSolved := wChainSolution.nbSolved + 1 }

/-- Witness for C2 (amended): a hint input reading the unsolved wire 0,
itself the output of the registered hint 0, evaluates successfully to
`[4]` and leaves wire 0 solved. -/
theorem solveWithHint_recursive_resolution_bn254_witness :
    HintWiresInv wChainSolution
    ∧ evalInputs (fun s1 v1 h1 => Solution.solveWithHint 1 s1 v1 h1)
        wChainSolution [[⟨1, 0, false⟩]] = some (wChainFinal, none, [4])
    ∧ wChainFinal.solved 0 = true := by
  have hInv : HintWiresInv wChainSolution := by
    intro w hm hw
    by_cases h0 : w = 0
    · subst h0
      have hw2 : hm = wChainHint := by
        simpa [wChainSolution] using hw.symm
      subst hw2
      simp [wChainHint]
    · simp [wChainSolution, h0] at hw
  have hev : evalInputs (fun s1 v1 h1 => Solution.solveWithHint 1 s1 v1 h1)
      wChainSolution [[⟨1, 0, false⟩]] = some (wChainFinal, none, [4]) := rfl
  exact ⟨hInv, hev, (solveWithHint_recursive_resolution_bn254 1 wChainSolution wChainFinal
    [[⟨1, 0, false⟩]] [4] hInv hev).1 [⟨1, 0, false⟩] (by simp) ⟨1, 0, false⟩
    (by simp) rfl⟩


/-- The chunk-dispatch loop of `solver.run`: `k` tasks remain, the next
chunk starts at `i * nbIter + extraOffset`, holds `nbIter` instruction
indices (one more while `extraTasks` remain), and each slice is pushed in
order. -/
def runChunks (level : List ℕ) (nbIter : ℕ) : ℕ → ℕ → ℕ → ℕ → List (List ℕ)
  | 0, _, _, _ => []
  | k + 1, i, extraTasks, extraOffset =>
    if 0 < extraTasks then
      ((level.drop (i * nbIter + extraOffset)).take (nbIter + 1)) ::
        runChunks level nbIter k (i + 1) (extraTasks - 1) (extraOffset + 1)
    else
      ((level.drop (i * nbIter + extraOffset)).take nbIter) ::
        runChunks level nbIter k (i + 1) extraTasks extraOffset

/-- The work-partitioning computation of `solver.run` for one level on
the parallel path: cap the task count at `ceil(len/50)`, derive the
per-task iteration count, fall back to one-iteration tasks when the
division is zero, and emit the contiguous chunks. -/
def chunkLevel (nbTasksCfg : ℕ) (level : List ℕ) : List (List ℕ) :=
  let maxTasks := (level.length + 49) / 50
  let nbTasks0 := if nbTasksCfg > maxTasks then maxTasks else nbTasksCfg
  let nbIter0 := level.length / nbTasks0
  let nbIter := if nbIter0 < 1 then 1 else nbIter0
  let nbTasks := if nbIter0 < 1 then level.length else nbTasks0
  runChunks level nbIter nbTasks 0 (level.length - nbTasks * nbIter) 0

/-- Splitting a contiguous slice of length `a + b` at `a`. -/
theorem take_chunk_split (l : List ℕ) (s a b : ℕ) :
    (l.drop s).take (a + b) = (l.drop s).take a ++ (l.drop (s + a)).take b := by
  rw [List.take_add, List.drop_drop]

/-- Joining the emitted chunks yields exactly the consecutive slice of
the level they cover, and the chunk sizes are `nbIter + 1` for the first
`extra` chunks and `nbIter` for the rest. -/
theorem runChunks_spec (level : List ℕ) (nbIter : ℕ) :
    ∀ (k i extra off : ℕ), extra ≤ k →
      i * nbIter + off + (k * nbIter + extra) ≤ level.length →
      (runChunks level nbIter k i extra off).flatten
          = (level.drop (i * nbIter + off)).take (k * nbIter + extra)
      ∧ (runChunks level nbIter k i extra off).map List.length
          = List.replicate extra (nbIter + 1) ++ List.replicate (k - extra) nbIter := by
  intro k
  induction k with
  | zero =>
    intro i extra off hek hbound
    have hez : extra = 0 := by omega
    subst hez
    simp [runChunks]
  | succ k ih =>
    intro i extra off hek hbound
    rcases Nat.eq_zero_or_pos extra with hez | hpos
    · subst hez
      have hstep : (i + 1) * nbIter + off = i * nbIter + off + nbIter := by
        rw [Nat.succ_mul]; omega
      have hbound' : (i + 1) * nbIter + off + (k * nbIter + 0) ≤ level.length := by
        rw [hstep]
        rw [Nat.succ_mul] at hbound
        omega
      obtain ⟨ihj, ihm⟩ := ih (i + 1) 0 off (by omega) hbound'
      constructor
      · simp only [runChunks, Nat.lt_irrefl, if_false, List.flatten_cons]
        rw [ihj, hstep,
          show (k + 1) * nbIter + 0 = nbIter + (k * nbIter + 0) from by
            rw [Nat.succ_mul]; omega,
          take_chunk_split level (i * nbIter + off) nbIter (k * nbIter + 0)]
      · simp only [runChunks, Nat.lt_irrefl, if_false, List.map_cons]
        rw [ihm]
        have hlen1 : ((level.drop (i * nbIter + off)).take nbIter).length = nbIter := by
          rw [List.length_take, List.length_drop]
          rw [Nat.succ_mul] at hbound
          omega
        rw [hlen1]
        simp [List.replicate_succ]
    · obtain ⟨e, rfl⟩ : ∃ e, extra = e + 1 := ⟨extra - 1, by omega⟩
      have hstep : (i + 1) * nbIter + (off + 1) = i * nbIter + off + (nbIter + 1) := by
        rw [Nat.succ_mul]; omega
      have hbound' : (i + 1) * nbIter + (off + 1) + (k * nbIter + e) ≤ level.length := by
        rw [hstep]
        rw [Nat.succ_mul] at hbound
        omega
      obtain ⟨ihj, ihm⟩ := ih (i + 1) e (off + 1) (by omega) hbound'
      constructor
      · simp only [runChunks, if_pos (Nat.succ_pos e), Nat.succ_sub_one, List.flatten_cons]
        rw [ihj, hstep,
          show (k + 1) * nbIter + (e + 1) = (nbIter + 1) + (k * nbIter + e) from by
            rw [Nat.succ_mul]; omega,
          take_chunk_split level (i * nbIter + off) (nbIter + 1) (k * nbIter + e)]
      · simp only [runChunks, if_pos (Nat.succ_pos e), Nat.succ_sub_one, List.map_cons]
        rw [ihm]
        have hlen1 : ((level.drop (i * nbIter + off)).take (nbIter + 1)).length
            = nbIter + 1 := by
          rw [List.length_take, List.length_drop]
          rw [Nat.succ_mul] at hbound
          omega
        rw [hlen1, show (k + 1) - (e + 1) = k - e from by omega]
        simp [List.replicate_succ]

/-- C9: on the parallel path (level longer than 50, configured task
count at least 2), the chunking of `run` partitions the level's index
list into contiguous chunks whose concatenation is exactly the level,
with the remainder spread one index each over the first chunks so all
sizes are `m` or `m + 1`. -/
theorem run_chunk_partition (nbTasksCfg : ℕ) (level : List ℕ)
    (hlen : 50 < level.length) (hcfg : 2 ≤ nbTasksCfg) :
    (chunkLevel nbTasksCfg level).flatten = level
    ∧ ∃ m e k, 1 ≤ m ∧
        (chunkLevel nbTasksCfg level).map List.length
          = List.replicate e (m + 1) ++ List.replicate k m := by
  have main : ∀ nbT : ℕ, 0 < nbT → nbT ≤ level.length →
      (runChunks level (level.length / nbT) nbT 0
          (level.length - nbT * (level.length / nbT)) 0).flatten = level
      ∧ (runChunks level (level.length / nbT) nbT 0
          (level.length - nbT * (level.length / nbT)) 0).map List.length
          = List.replicate (level.length - nbT * (level.length / nbT))
              ((level.length / nbT) + 1)
            ++ List.replicate (nbT - (level.length - nbT * (level.length / nbT)))
              (level.length / nbT) := by
    intro nbT hpos hle
    have hmod := Nat.div_add_mod level.length nbT
    have hmodlt : level.length % nbT < nbT := Nat.mod_lt _ hpos
    obtain ⟨hj, hm⟩ := runChunks_spec level (level.length / nbT) nbT 0
      (level.length - nbT * (level.length / nbT)) 0 (by omega) (by omega)
    refine ⟨?_, hm⟩
    rw [hj, show 0 * (level.length / nbT) + 0 = 0 from by omega, List.drop_zero,
      show nbT * (level.length / nbT)
          + (level.length - nbT * (level.length / nbT)) = level.length from by omega]
    exact List.take_length level
  have hchunk : ∃ nbT0, 2 ≤ nbT0 ∧ nbT0 ≤ level.length ∧
      chunkLevel nbTasksCfg level
        = runChunks level (level.length / nbT0) nbT0 0
            (level.length - nbT0 * (level.length / nbT0)) 0 := by
    by_cases hcmp : nbTasksCfg > (level.length + 49) / 50
    · refine ⟨(level.length + 49) / 50, by omega, by omega, ?_⟩
      have h1 : 1 ≤ level.length / ((level.length + 49) / 50) :=
        (Nat.one_le_div_iff (by omega)).2 (by omega)
      simp only [chunkLevel, if_pos hcmp,
        if_neg (by omega : ¬ level.length / ((level.length + 49) / 50) < 1)]
    · refine ⟨nbTasksCfg, hcfg, by omega, ?_⟩
      have h1 : 1 ≤ level.length / nbTasksCfg :=
        (Nat.one_le_div_iff (by omega)).2 (by omega)
      simp only [chunkLevel, if_neg hcmp,
        if_neg (by omega : ¬ level.length / nbTasksCfg < 1)]
  obtain ⟨nbT0, h2, hleL, hEq⟩ := hchunk
  obtain ⟨hjoin, hmap⟩ := main nbT0 (by omega) hleL
  rw [hEq]
  exact ⟨hjoin, level.length / nbT0, _, _,
    (Nat.one_le_div_iff (by omega)).2 hleL, hmap⟩

/-- Witness for C9: a level of 51 indices with 2 configured workers is
split into chunks of sizes 26 and 25 that rebuild the level exactly. -/
theorem run_chunk_partition_witness :
    50 < (List.range 51).length ∧ 2 ≤ 2
    ∧ (chunkLevel 2 (List.range 51)).flatten = List.range 51
    ∧ (chunkLevel 2 (List.range 51)).map List.length = [26, 25] :=
  ⟨by decide, by decide,
   (run_chunk_partition 2 (List.range 51) (by decide) (by decide)).1, by decide⟩

end Gnark
